import Mathlib

/-!
Verification of the valutatrade_hub rate-resolution engine and update/caching
pipeline, shallowly embedded from the Python sources:

* `core/usecases.py` — `RateService.get_rate` (the resolver);
* `parser_service/storage.py` — `RatesStorage.save_to_history`,
  `RatesStorage.update_rates_cache`, `RatesStorage._atomic_write`;
* `parser_service/updater.py` — `RatesUpdater.update_rates`.

Rates are modelled as rationals; Python exceptions become an explicit error
type, and the division `1 / rate` in the reverse-lookup branch is modelled
with Python semantics: dividing by a zero rate raises `ZeroDivisionError`.
-/

instance {ε α : Type} [DecidableEq ε] [DecidableEq α] : DecidableEq (Except ε α) := fun a b =>
  match a, b with
  | .ok x, .ok y =>
    if h : x = y then .isTrue (by rw [h]) else .isFalse (fun hc => h (Except.ok.inj hc))
  | .error x, .error y =>
    if h : x = y then .isTrue (by rw [h]) else .isFalse (fun hc => h (Except.error.inj hc))
  | .ok _, .error _ => .isFalse (fun hc => Except.noConfusion hc)
  | .error _, .ok _ => .isFalse (fun hc => Except.noConfusion hc)

/-- Python `str.upper()` on ASCII strings, character by character (a
kernel-reducible replacement for `String.toUpper`, which it agrees with). -/
def pyUpper (s : String) : String := ⟨s.data.map Char.toUpper⟩

/-- Errors `RateService.get_rate` can raise.  `recursionLimit` and
`rateUnavailable` are both Python `ValueError`s (the spec calls them
`RecursionLimitExceeded` and `RateUnavailable`); `currencyNotFound` is
`CurrencyNotFoundError`; `zeroDivision` is Python's `ZeroDivisionError`,
raised by `1 / 0.0`. -/
inductive RateError where
  | currencyNotFound (code : String)
  | recursionLimit
  | rateUnavailable
  | zeroDivision
  deriving DecidableEq, Repr

/-- Which of the errors are instances of Python `ValueError` — those are the
ones caught by the `except ValueError` around the cross-derivation step. -/
def RateError.isValueError : RateError → Bool
  | .recursionLimit => true
  | .rateUnavailable => true
  | _ => false

/-- The keys of `_CURRENCY_REGISTRY` in `core/currencies.py`. -/
def registryCodes : List String := ["USD", "EUR", "RUB", "BTC", "ETH"]

/-- The rates cache as the resolver sees it: pair-key `"FROM_TO"` mapped to
an entry that may or may not carry a `"rate"` field. -/
abbrev Cache := List (String × Option ℚ)

/-- Python f-string `f"{a}_{b}"`. -/
def pairKey (a b : String) : String := a ++ "_" ++ b

/-- `RateService.FALLBACK_RATES` from `core/usecases.py`
(1.08 = 27/25, 60000.0, 0.011 = 11/1000, 3000.0 as exact rationals). -/
def FALLBACK_RATES : Cache :=
  [("EUR_USD", some (mkRat 27 25)), ("BTC_USD", some (mkRat 60000 1)),
   ("RUB_USD", some (mkRat 11 1000)), ("ETH_USD", some (mkRat 3000 1))]

/-- The body of `RateService.get_rate` from `core/usecases.py`, indexed by
the remaining recursion allowance `rem = 3 - depth` instead of `depth`
itself so that the recursion is structural (over `Nat`, `depth > 2` holds
exactly when `3 - depth = 0`, and the recursive calls at `depth + 1` carry
allowance `rem - 1`).  Steps, in source order: depth guard (`depth > 2`),
upper-casing, registry validation of both codes, identity case, cache read
with fallback (`self.db.get_rates() or FALLBACK_RATES`), direct entry,
reverse entry (Python computes `1 / rate`, so a zero rate raises
`ZeroDivisionError`, modelled by the `r = 0` test), cross-derivation through
USD at `depth + 1` whose `ValueError`s are swallowed, and the final
`ValueError` ("rate unavailable"). -/
def getRateGo (db : Cache) : Nat → String → String → Except RateError ℚ
  | 0, _, _ => .error .recursionLimit
  | rem + 1, fromC, toC =>
    let f := pyUpper fromC
    let t := pyUpper toC
    if f ∈ registryCodes then
      if t ∈ registryCodes then
        if f = t then .ok 1
        else
          let rates := if db.isEmpty then FALLBACK_RATES else db
          match rates.lookup (pairKey f t) with
          | some (some r) => .ok r
          | _ =>
            match rates.lookup (pairKey t f) with
            | some (some r) => if r = 0 then .error .zeroDivision else .ok (1 / r)
            | _ =>
              if f ≠ "USD" ∧ t ≠ "USD" then
                match getRateGo db rem f "USD" with
                | .error e =>
                  if e.isValueError then .error .rateUnavailable else .error e
                | .ok a =>
                  match getRateGo db rem "USD" t with
                  | .error e =>
                    if e.isValueError then .error .rateUnavailable else .error e
                  | .ok b => .ok (a * b)
              else .error .rateUnavailable
      else .error (.currencyNotFound t)
    else .error (.currencyNotFound f)

/-- `RateService.get_rate(from_currency, to_currency, depth)` from
`core/usecases.py` (see `getRateGo` for the body). -/
def getRate (db : Cache) (fromC toC : String) (depth : Nat) : Except RateError ℚ :=
  getRateGo db (3 - depth) fromC toC

/-- The spec's notion of a pair being resolvable from the fallback table
("directly, reversely, or via cross-derivation"): a second definition built
from the spec's words, to be compared with the behaviour of `getRate` on an
empty cache.  A pair resolves directly when the fallback table carries a
direct entry with a rate, reversely when it carries a reverse entry with a
nonzero rate, and by cross-derivation when neither endpoint is USD and both
legs through USD resolve directly or reversely. -/
def specFallbackResolvable (f t : String) : Bool :=
  fallbackDirect (pairKey f t) || fallbackReverseNonzero (pairKey t f) ||
    (!(f == "USD") && !(t == "USD") &&
      (fallbackDirect (pairKey f "USD") || fallbackReverseNonzero (pairKey "USD" f)) &&
      (fallbackDirect (pairKey "USD" t) || fallbackReverseNonzero (pairKey t "USD")))
where
  fallbackDirect (k : String) : Bool :=
    match FALLBACK_RATES.lookup k with
    | some (some _) => true
    | _ => false
  fallbackReverseNonzero (k : String) : Bool :=
    match FALLBACK_RATES.lookup k with
    | some (some r) => if r = 0 then false else true
    | _ => false

/-!  Persistence layer: `parser_service/storage.py` and
`parser_service/updater.py`. -/

/-- A run timestamp.  `sec` is `timestamp.strftime("%Y-%m-%dT%H:%M:%SZ")`
(second precision, used for record identities); `iso` is
`timestamp.isoformat()` (used, with a trailing `"Z"`, for the stored
`timestamp` / `updated_at` / `last_refresh` fields). -/
structure Timestamp where
  sec : String
  iso : String
  deriving DecidableEq

/-- Python's single-character `str.split` on a list of characters:
`splitCharsOn sep s` cuts `s` at every occurrence of `sep`. -/
def splitCharsOn (sep : Char) : List Char → List (List Char)
  | [] => [[]]
  | c :: cs =>
    let r := splitCharsOn sep cs
    if c = sep then [] :: r
    else
      match r with
      | [] => [[c]]
      | h :: rest => (c :: h) :: rest

/-- Python `s.split(sep)` for a one-character separator (the only use in the
source is `pair_key.split("_")`). -/
def pySplit (s : String) (sep : Char) : List String :=
  (splitCharsOn sep s.data).map String.mk

/-- `RatesStorage._generate_rate_id`: `f"{from}_{to}_{timestamp_str}"` with
the timestamp formatted to second precision. -/
def generateRateId (f t : String) (ts : Timestamp) : String :=
  f ++ "_" ++ t ++ "_" ++ ts.sec

/-- One value of a client's rates mapping: `{"rate": ..., "meta": {...}}`
(the metadata dict is treated as an opaque blob). -/
structure RateData where
  rate : ℚ
  meta : String := ""
  deriving DecidableEq

/-- A client's parsed rates: pair-key `"FROM_TO"` to rate data, in dict
insertion order. -/
abbrev RatesMap := List (String × RateData)

/-- One record of the history file `exchange_rates.json`. -/
structure HistoryRecord where
  id : String
  from_currency : String
  to_currency : String
  rate : ℚ
  timestamp : String
  source : String
  meta : String
  deriving DecidableEq

/-- The history record `RatesStorage.save_to_history` builds for one rates
entry. -/
def mkRecord (f t : String) (d : RateData) (src : String) (ts : Timestamp) :
    HistoryRecord :=
  { id := generateRateId f t ts, from_currency := f, to_currency := t,
    rate := d.rate, timestamp := ts.iso ++ "Z", source := src, meta := d.meta }

/-- The loop of `RatesStorage.save_to_history`: walk the rates mapping in
order; skip keys that do not split into exactly two parts on `"_"`; skip
records whose identity is already in `existingIds` (computed once, up
front); append the rest, counting them. -/
def appendLoop (existingIds : List String) (src : String) (ts : Timestamp) :
    RatesMap → List HistoryRecord × Nat
  | [] => ([], 0)
  | (k, d) :: rest =>
    match pySplit k '_' with
    | [f, t] =>
      if generateRateId f t ts ∈ existingIds then appendLoop existingIds src ts rest
      else
        let r := appendLoop existingIds src ts rest
        (mkRecord f t d src ts :: r.1, r.2 + 1)
    | _ => appendLoop existingIds src ts rest

/-- `RatesStorage.save_to_history(rates_data, source, timestamp)`: returns
the new history file contents and the number of records actually added
(the file is only rewritten when that number is positive, which leaves the
same contents either way). -/
def saveToHistory (history : List HistoryRecord) (rates : RatesMap)
    (src : String) (ts : Timestamp) : List HistoryRecord × Nat :=
  let r := appendLoop (history.map (fun rec => rec.id)) src ts rates
  (history ++ r.1, r.2)

/-- The characterisation the spec gives of `save_to_history`: the records of
the batch whose identity is not already present in the history, in batch
order. -/
def specNewRecords (history : List HistoryRecord) (rates : RatesMap)
    (src : String) (ts : Timestamp) : List HistoryRecord :=
  rates.filterMap fun kv =>
    match pySplit kv.1 '_' with
    | [f, t] =>
      if generateRateId f t ts ∈ history.map (fun rec => rec.id) then none
      else some (mkRecord f t kv.2 src ts)
    | _ => none

/-- One per-pair entry of the flat rates cache `rates.json`. -/
structure CacheEntry where
  rate : ℚ
  updated_at : String
  deriving DecidableEq

/-- The flat rates cache `rates.json` as written by
`RatesStorage.update_rates_cache`: the per-pair entries plus the two
top-level scalars `source` and `last_refresh`. -/
structure CacheFile where
  pairs : List (String × CacheEntry)
  source : String
  last_refresh : String
  deriving DecidableEq

/-- `RatesStorage.update_rates_cache(rates_data, source, timestamp)`: each
input pair is written through with the run timestamp; `source` and
`last_refresh` are set at top level. -/
def updateRatesCache (rates : RatesMap) (src : String) (ts : Timestamp) :
    CacheFile :=
  { pairs := rates.map fun kv => (kv.1, { rate := kv.2.rate, updated_at := ts.iso ++ "Z" }),
    source := src, last_refresh := ts.iso ++ "Z" }

/-- The observable state of one persisted JSON file: the committed file (as
readers see it) and the temporary `.tmp` artifact, if present. -/
structure FileState (α : Type) where
  committed : Option α
  temp : Option α
  deriving DecidableEq

/-- `RatesStorage._atomic_write(file_path, data)`: `json.dump` writes `data`
to the temporary file, which is then renamed over the committed file.
`writeOk = false` models an exception anywhere in the `try` block (e.g.
disk full during the dump): the handler unlinks the temporary artifact and
re-raises.  The returned `Bool` is `false` exactly when the exception
propagates to the caller. -/
def atomicWrite {α : Type} (fs : FileState α) (data : α) (writeOk : Bool) :
    FileState α × Bool :=
  if writeOk then ({ committed := some data, temp := none }, true)
  else ({ committed := fs.committed, temp := none }, false)

/-- Python `str.capitalize()` (ASCII): first character upper-cased, the rest
lower-cased. -/
def pyCapitalize (s : String) : String :=
  match s.data with
  | [] => ""
  | c :: cs => ⟨c.toUpper :: cs.map Char.toLower⟩

/-- The message `f"Failed to fetch from {name.capitalize()}: {e}"` appended
to the updater's error list. -/
def fetchErrorMsg (name e : String) : String :=
  "Failed to fetch from " ++ pyCapitalize name ++ ": " ++ e

/-- Python dict assignment `m[k] = v` on an insertion-ordered association
list: overwrite in place if the key exists, else append. -/
def dictInsert {α : Type} (m : List (String × α)) (k : String) (v : α) :
    List (String × α) :=
  if m.any (fun kv => kv.1 == k) then
    m.map fun kv => if kv.1 == k then (k, v) else kv
  else m ++ [(k, v)]

/-- Python `m.update(news)`. -/
def dictUpdate {α : Type} (m news : List (String × α)) : List (String × α) :=
  news.foldl (fun acc kv => dictInsert acc kv.1 kv.2) m

/-- One value of the report's `sources` mapping. -/
structure SourceInfo where
  success : Bool
  rates : Nat
  error : Option String := none
  deriving DecidableEq

/-- The report returned by `RatesUpdater.update_rates`
(`_build_report`). -/
structure UpdateReport where
  success : Bool
  timestamp : String
  total_rates : Nat
  sources : List (String × SourceInfo)
  deriving DecidableEq

/-- The accumulator state of the client loop in
`RatesUpdater.update_rates`. -/
structure RunState where
  history : List HistoryRecord
  allRates : RatesMap
  sources : List (String × SourceInfo)
  errors : List String
  deriving DecidableEq

/-- The client loop of `RatesUpdater.update_rates`.  A client is its name
together with the outcome of `fetch_rates()`: either a rates mapping or an
`ApiRequestError` (whose message is the `String`).  On success the fragment
is saved to history (when non-empty) and merged into the aggregate map; on
failure an error is recorded and the loop continues with the next
client. -/
def runClients (ts : Timestamp) :
    List (String × Except String RatesMap) → RunState → RunState
  | [], st => st
  | (name, .ok rates) :: rest, st =>
    runClients ts rest
      { history := if rates.isEmpty then st.history
                   else (saveToHistory st.history rates name ts).1,
        allRates := dictUpdate st.allRates rates,
        sources := st.sources ++ [(name, { success := true, rates := rates.length })],
        errors := st.errors }
  | (name, .error e) :: rest, st =>
    runClients ts rest
      { history := st.history, allRates := st.allRates,
        sources := st.sources ++ [(name, { success := false, rates := 0, error := some e })],
        errors := st.errors ++ [fetchErrorMsg name e] }

/-- The combined result of one `RatesUpdater.update_rates` run: the history
file, the cache file (unchanged when the aggregate map stayed empty), and
the report. -/
structure UpdateOutcome where
  history : List HistoryRecord
  cache : Option CacheFile
  report : UpdateReport
  deriving DecidableEq

/-- `RatesUpdater.update_rates()`: run every client in registration order
(`coingecko` before `exchangerate` when both run), then, if the aggregate
map is non-empty, replace the cache stamped with the synthetic source
`"ParserService"`, and build the report (`success` iff the error list is
empty, `total_rates` the size of the aggregate map). -/
def updateRates (clients : List (String × Except String RatesMap))
    (history0 : List HistoryRecord) (cache0 : Option CacheFile)
    (ts : Timestamp) : UpdateOutcome :=
  let st := runClients ts clients
    { history := history0, allRates := [], sources := [], errors := [] }
  { history := st.history,
    cache := if st.allRates.isEmpty then cache0
             else some (updateRatesCache st.allRates "ParserService" ts),
    report := { success := st.errors.isEmpty, timestamp := ts.iso ++ "Z",
                total_rates := st.allRates.length, sources := st.sources } }

/-- The `sources` entry `update_rates` records for one client. -/
def clientSourceEntry (p : String × Except String RatesMap) : String × SourceInfo :=
  (p.1, match p.2 with
        | .ok rates => { success := true, rates := rates.length, error := none }
        | .error e => { success := false, rates := 0, error := some e })

/-- The error-list entry `update_rates` records for one client (none for a
successful client). -/
def clientErrorMsg (p : String × Except String RatesMap) : Option String :=
  match p.2 with
  | .ok _ => none
  | .error e => some (fetchErrorMsg p.1 e)

/-!  Helper lemmas. -/

lemma registry_pyUpper_self (x : String) (hx : x ∈ registryCodes) : pyUpper x = x := by
  simp only [registryCodes, List.mem_cons, List.not_mem_nil, or_false] at hx
  rcases hx with rfl | rfl | rfl | rfl | rfl <;> rfl

lemma getRateGo_empty_eq_fallback (rem : Nat) :
    ∀ f t, getRateGo [] rem f t = getRateGo FALLBACK_RATES rem f t := by
  induction rem with
  | zero => intro f t; rfl
  | succ n ih =>
    intro f t
    simp only [getRateGo, List.isEmpty_nil, if_true, ite_self, ih]

lemma appendLoop_eq_filterMap (ids : List String) (src : String) (ts : Timestamp) :
    ∀ rates : RatesMap,
      appendLoop ids src ts rates =
        (rates.filterMap fun kv =>
          match pySplit kv.1 '_' with
          | [f, t] =>
            if generateRateId f t ts ∈ ids then none
            else some (mkRecord f t kv.2 src ts)
          | _ => none,
         (rates.filterMap fun kv =>
           match pySplit kv.1 '_' with
           | [f, t] =>
             if generateRateId f t ts ∈ ids then none
             else some (mkRecord f t kv.2 src ts)
           | _ => none).length) := by
  intro rates
  induction rates with
  | nil => rfl
  | cons kv rest ih =>
    obtain ⟨k, d⟩ := kv
    simp only [appendLoop, List.filterMap_cons]
    rcases hsp : pySplit k '_' with _ | ⟨f, l⟩
    · simpa [hsp] using ih
    · rcases l with _ | ⟨t, l2⟩
      · simpa [hsp] using ih
      · rcases l2 with _ | _
        · by_cases hmem : generateRateId f t ts ∈ ids
          · simpa [hsp, hmem] using ih
          · simp [hsp, hmem, ih]
        · simpa [hsp] using ih

lemma appendLoop_nothing_new (ids : List String) (src : String) (ts : Timestamp) :
    ∀ rates : RatesMap,
      (∀ kv ∈ rates, ∀ f t, pySplit kv.1 '_' = [f, t] → generateRateId f t ts ∈ ids) →
      appendLoop ids src ts rates = ([], 0) := by
  intro rates h
  induction rates with
  | nil => rfl
  | cons kv rest ih =>
    obtain ⟨k, d⟩ := kv
    have hrest := ih (fun kv hkv f t hsp => h kv (List.mem_cons_of_mem _ hkv) f t hsp)
    rcases hsp : pySplit k '_' with _ | ⟨f, l⟩
    · simpa [appendLoop, hsp] using hrest
    · rcases l with _ | ⟨t, l2⟩
      · simpa [appendLoop, hsp] using hrest
      · rcases l2 with _ | _
        · have hmem := h (k, d) (List.mem_cons_self _ _) f t hsp
          simpa [appendLoop, hsp, hmem] using hrest
        · simpa [appendLoop, hsp] using hrest

lemma saveToHistory_id_mem (history : List HistoryRecord) (rates : RatesMap)
    (src : String) (ts : Timestamp) :
    ∀ kv ∈ rates, ∀ f t, pySplit kv.1 '_' = [f, t] →
      generateRateId f t ts
        ∈ ((saveToHistory history rates src ts).1).map (fun rec => rec.id) := by
  intro kv hkv f t hsp
  simp only [saveToHistory, List.map_append, List.mem_append]
  by_cases hmem : generateRateId f t ts ∈ history.map (fun rec => rec.id)
  · exact Or.inl hmem
  · right
    rw [appendLoop_eq_filterMap]
    simp only [List.map_filterMap, List.mem_filterMap]
    refine ⟨kv, hkv, ?_⟩
    simp [hsp, hmem, mkRecord]

lemma dictInsert_keys {α : Type} (m : List (String × α)) (k : String) (v : α) :
    (dictInsert m k v).map (fun kv => kv.1)
      = if m.any (fun kv => kv.1 == k) then m.map (fun kv => kv.1)
        else m.map (fun kv => kv.1) ++ [k] := by
  unfold dictInsert
  by_cases hany : m.any (fun kv => kv.1 == k) = true
  · simp only [hany, if_true, List.map_map]
    apply List.map_congr_left
    intro x hx
    by_cases heq : x.1 == k
    · have hxk : x.1 = k := by simpa using heq
      simp [heq, hxk]
    · have hxk : x.1 ≠ k := by simpa using heq
      simp [hxk]
  · simp only [Bool.not_eq_true] at hany
    simp [hany]

lemma dictUpdate_keys_mono {α : Type} :
    ∀ (news m : List (String × α)) (k' : String),
      k' ∈ m.map (fun kv => kv.1) → k' ∈ (dictUpdate m news).map (fun kv => kv.1) := by
  intro news
  induction news with
  | nil => intro m k' h; exact h
  | cons kv rest ih =>
    intro m k' h
    have hstep : k' ∈ (dictInsert m kv.1 kv.2).map (fun x => x.1) := by
      rw [dictInsert_keys]
      by_cases hany : m.any (fun x => x.1 == kv.1) = true
      · simpa [hany] using h
      · simp only [Bool.not_eq_true] at hany
        simp [hany, h]
    simpa [dictUpdate] using ih (dictInsert m kv.1 kv.2) k' hstep

lemma dictUpdate_keys_right {α : Type} :
    ∀ (news m : List (String × α)) (kv : String × α),
      kv ∈ news → kv.1 ∈ (dictUpdate m news).map (fun x => x.1) := by
  intro news
  induction news with
  | nil => intro m kv h; cases h
  | cons hd rest ih =>
    intro m kv h
    rcases List.mem_cons.mp h with rfl | htail
    · have hmem : kv.1 ∈ (dictInsert m kv.1 kv.2).map (fun x => x.1) := by
        rw [dictInsert_keys]
        by_cases hany : m.any (fun x => x.1 == kv.1) = true
        · rcases List.any_eq_true.mp hany with ⟨x, hx, hbeq⟩
          have hxk : x.1 = kv.1 := by simpa using hbeq
          simp only [hany, if_true]
          exact hxk ▸ List.mem_map_of_mem _ hx
        · simp only [Bool.not_eq_true] at hany
          simp [hany]
      simpa [dictUpdate] using dictUpdate_keys_mono rest _ _ hmem
    · simpa [dictUpdate] using ih (dictInsert m hd.1 hd.2) kv htail

lemma runClients_sources (ts : Timestamp) :
    ∀ (clients : List (String × Except String RatesMap)) (st : RunState),
      (runClients ts clients st).sources = st.sources ++ clients.map clientSourceEntry := by
  intro clients
  induction clients with
  | nil => intro st; simp [runClients]
  | cons p rest ih =>
    intro st
    obtain ⟨name, res⟩ := p
    cases res with
    | ok rates => simp [runClients, ih, clientSourceEntry]
    | error e => simp [runClients, ih, clientSourceEntry]

lemma runClients_errors (ts : Timestamp) :
    ∀ (clients : List (String × Except String RatesMap)) (st : RunState),
      (runClients ts clients st).errors = st.errors ++ clients.filterMap clientErrorMsg := by
  intro clients
  induction clients with
  | nil => intro st; simp [runClients]
  | cons p rest ih =>
    intro st
    obtain ⟨name, res⟩ := p
    cases res with
    | ok rates => simp [runClients, ih, clientErrorMsg]
    | error e => simp [runClients, ih, clientErrorMsg]

lemma runClients_history_ids_mono (ts : Timestamp) :
    ∀ (clients : List (String × Except String RatesMap)) (st : RunState),
      st.history.map (fun rec => rec.id)
        ⊆ (runClients ts clients st).history.map (fun rec => rec.id) := by
  intro clients
  induction clients with
  | nil => intro st; exact fun i hi => hi
  | cons p rest ih =>
    intro st
    obtain ⟨name, res⟩ := p
    cases res with
    | ok rates =>
      intro i hi
      refine ih _ ?_
      by_cases hempty : rates.isEmpty
      · simp [hempty, hi]
      · simp only [Bool.not_eq_true] at hempty
        simp [hempty, saveToHistory, hi]
    | error e =>
      intro i hi
      exact ih _ hi

lemma runClients_allRates_keys_mono (ts : Timestamp) :
    ∀ (clients : List (String × Except String RatesMap)) (st : RunState) (k : String),
      k ∈ st.allRates.map (fun kv => kv.1)
        → k ∈ (runClients ts clients st).allRates.map (fun kv => kv.1) := by
  intro clients
  induction clients with
  | nil => intro st k h; exact h
  | cons p rest ih =>
    intro st k h
    obtain ⟨name, res⟩ := p
    cases res with
    | ok rates => exact ih _ k (dictUpdate_keys_mono rates _ k h)
    | error e => exact ih _ k h

lemma runClients_ok_history (ts : Timestamp) :
    ∀ (clients : List (String × Except String RatesMap)) (st : RunState)
      (name : String) (rates : RatesMap),
      (name, Except.ok rates) ∈ clients →
      ∀ kv ∈ rates, ∀ f t, pySplit kv.1 '_' = [f, t] →
        generateRateId f t ts ∈ (runClients ts clients st).history.map (fun rec => rec.id) := by
  intro clients
  induction clients with
  | nil => intro st name rates h; cases h
  | cons p rest ih =>
    intro st name rates hmem kv hkv f t hsp
    rcases List.mem_cons.mp hmem with heq | htail
    · subst heq
      have hempty : rates.isEmpty = false := by
        cases rates with
        | nil => cases hkv
        | cons a l => rfl
      have hid : generateRateId f t ts
          ∈ ((saveToHistory st.history rates name ts).1).map (fun rec => rec.id) :=
        saveToHistory_id_mem st.history rates name ts kv hkv f t hsp
      refine runClients_history_ids_mono ts rest _ ?_
      simpa [hempty] using hid
    · obtain ⟨name2, res⟩ := p
      cases res with
      | ok rates2 => exact ih _ name rates htail kv hkv f t hsp
      | error e => exact ih _ name rates htail kv hkv f t hsp

lemma runClients_ok_keys (ts : Timestamp) :
    ∀ (clients : List (String × Except String RatesMap)) (st : RunState)
      (name : String) (rates : RatesMap),
      (name, Except.ok rates) ∈ clients →
      ∀ kv ∈ rates, kv.1 ∈ (runClients ts clients st).allRates.map (fun x => x.1) := by
  intro clients
  induction clients with
  | nil => intro st name rates h; cases h
  | cons p rest ih =>
    intro st name rates hmem kv hkv
    rcases List.mem_cons.mp hmem with heq | htail
    · subst heq
      refine runClients_allRates_keys_mono ts rest _ kv.1 ?_
      exact dictUpdate_keys_right rates st.allRates kv hkv
    · obtain ⟨name2, res⟩ := p
      cases res with
      | ok rates2 => exact ih _ name rates htail kv hkv
      | error e => exact ih _ name rates htail kv hkv

/-!  Claim theorems. -/

/-- Claim C1.  The claim states that a cached reverse entry with rate 0 (and
no direct entry) makes `resolve` fail with `RateUnavailable` and that the
zero rate is never inverted.  The code at `usecases.py:125` computes
`1 / rates_data[reverse_pair]["rate"]` unconditionally, so a zero cached
reverse rate is fed to the division and Python raises `ZeroDivisionError`
(which is not a `ValueError`, hence not `RateUnavailable`): at the cache
`{"USD_EUR": {"rate": 0.0}}`, `resolve("EUR", "USD")` raises
`ZeroDivisionError`. -/
theorem getRate_zero_reverse_divides :
    getRate [("USD_EUR", some 0)] "EUR" "USD" 0 = .error .zeroDivision ∧
    getRate [("USD_EUR", some 0)] "EUR" "USD" 0 ≠ .error .rateUnavailable := by
  constructor <;> decide

/-- Claim C2.  Recursion is bounded: any call entered with `depth > 2` fails
immediately with the recursion-limit error, for every cache (`getRate` is a
total function, so every call terminates by construction), and on the
cyclic cache `EUR→RUB, RUB→BTC, BTC→EUR` (none involving the pivot USD) the
unresolvable query `EUR→ETH` still terminates, with `RateUnavailable`. -/
theorem getRate_depth_bounded :
    (∀ (db : Cache) (f t : String) (d : Nat), d > 2 →
      getRate db f t d = .error .recursionLimit)
    ∧ getRate [("EUR_RUB", some 2), ("RUB_BTC", some 3), ("BTC_EUR", some 5)]
        "EUR" "ETH" 0 = .error .rateUnavailable := by
  constructor
  · intro db f t d hd
    have h0 : 3 - d = 0 := by omega
    simp [getRate, h0, getRateGo]
  · decide

/-- Witness for C2 at depth 3. -/
theorem getRate_depth_bounded_witness :
    (3 : Nat) > 2 ∧ getRate [] "EUR" "USD" 3 = .error .recursionLimit :=
  ⟨by decide, getRate_depth_bounded.1 [] "EUR" "USD" 3 (by decide)⟩

/-- Claim C3.  For every update run: the report's `success` is true iff no
client failed; when a client fails, `success` is false and the failing
client gets a `sources` entry recording the failure; every succeeding
client's records (well-formed pair keys) end up identified in the final
history, and their pair keys are present in the written cache file. -/
theorem updateRates_report_and_persistence
    (clients : List (String × Except String RatesMap))
    (h0 : List HistoryRecord) (c0 : Option CacheFile) (ts : Timestamp) :
    ((updateRates clients h0 c0 ts).report.success = true
        ↔ ∀ p ∈ clients, p.2.isOk = true)
    ∧ ((∃ p ∈ clients, p.2.isOk = false)
        → (updateRates clients h0 c0 ts).report.success = false)
    ∧ (∀ name e, (name, Except.error e) ∈ clients →
        (name, ({ success := false, rates := 0, error := some e } : SourceInfo))
          ∈ (updateRates clients h0 c0 ts).report.sources)
    ∧ (∀ name rates, (name, Except.ok rates) ∈ clients →
        (∀ kv ∈ rates, ∀ f t, pySplit kv.1 '_' = [f, t] →
          generateRateId f t ts
            ∈ (updateRates clients h0 c0 ts).history.map (fun rec => rec.id))
        ∧ (∀ kv ∈ rates, ∃ cf, (updateRates clients h0 c0 ts).cache = some cf
            ∧ kv.1 ∈ cf.pairs.map (fun x => x.1))) := by
  have hiff : (updateRates clients h0 c0 ts).report.success = true
      ↔ ∀ p ∈ clients, p.2.isOk = true := by
    have herr : (updateRates clients h0 c0 ts).report.success
        = (clients.filterMap clientErrorMsg).isEmpty := by
      simp [updateRates, runClients_errors]
    rw [herr]
    simp only [List.isEmpty_eq_true, List.filterMap_eq_nil_iff]
    constructor
    · intro hall p hp
      have := hall p hp
      cases hres : p.2 with
      | ok r => rfl
      | error e => simp [clientErrorMsg, hres] at this
    · intro hall p hp
      have := hall p hp
      cases hres : p.2 with
      | ok r => simp [clientErrorMsg, hres]
      | error e =>
        rw [hres] at this
        simp [Except.toBool, Except.isOk] at this
  refine ⟨hiff, ?_, ?_, ?_⟩
  · rintro ⟨p, hp, hfail⟩
    cases hsucc : (updateRates clients h0 c0 ts).report.success
    · rfl
    · have := (hiff.mp hsucc) p hp
      rw [this] at hfail
      cases hfail
  · intro name e hmem
    simp only [updateRates, runClients_sources ts clients, List.nil_append]
    refine List.mem_map (f := clientSourceEntry) |>.mpr ⟨(name, Except.error e), hmem, rfl⟩
  · intro name rates hmem
    constructor
    · intro kv hkv f t hsp
      exact runClients_ok_history ts clients _ name rates hmem kv hkv f t hsp
    · intro kv hkv
      have hkey : kv.1 ∈ (runClients ts clients
          { history := h0, allRates := [], sources := [], errors := [] }).allRates.map
            (fun x => x.1) :=
        runClients_ok_keys ts clients _ name rates hmem kv hkv
      have hne : (runClients ts clients
          { history := h0, allRates := [], sources := [], errors := [] }).allRates.isEmpty
            = false := by
        cases hrc : (runClients ts clients
            { history := h0, allRates := [], sources := [], errors := [] }).allRates with
        | nil => rw [hrc] at hkey; cases hkey
        | cons a l => rfl
      refine ⟨updateRatesCache (runClients ts clients
          { history := h0, allRates := [], sources := [], errors := [] }).allRates
          "ParserService" ts, ?_, ?_⟩
      · simp [updateRates, hne]
      · simp only [updateRatesCache, List.map_map]
        simpa using hkey

/-- Witness for C3: one failing client (`coingecko`) and one succeeding one
(`exchangerate`) — failure recorded, success data persisted, overall
`success = false`. -/
theorem updateRates_report_and_persistence_witness :
    (("coingecko", (Except.error "boom" : Except String RatesMap))
        ∈ ([("coingecko", Except.error "boom"),
            ("exchangerate", Except.ok [("BTC_USD", ⟨5, "m"⟩)])] :
            List (String × Except String RatesMap)))
    ∧ ("coingecko", ({ success := false, rates := 0, error := some "boom" } : SourceInfo))
        ∈ (updateRates
            [("coingecko", Except.error "boom"),
             ("exchangerate", Except.ok [("BTC_USD", ⟨5, "m"⟩)])]
            [] none ⟨"S", "I"⟩).report.sources
    ∧ generateRateId "BTC" "USD" ⟨"S", "I"⟩
        ∈ (updateRates
            [("coingecko", Except.error "boom"),
             ("exchangerate", Except.ok [("BTC_USD", ⟨5, "m"⟩)])]
            [] none ⟨"S", "I"⟩).history.map (fun rec => rec.id)
    ∧ (updateRates
            [("coingecko", Except.error "boom"),
             ("exchangerate", Except.ok [("BTC_USD", ⟨5, "m"⟩)])]
            [] none ⟨"S", "I"⟩).report.success = false :=
  ⟨by decide,
    (updateRates_report_and_persistence _ [] none ⟨"S", "I"⟩).2.2.1
      "coingecko" "boom" (by decide),
    ((updateRates_report_and_persistence _ [] none ⟨"S", "I"⟩).2.2.2
      "exchangerate" [("BTC_USD", ⟨5, "m"⟩)] (by decide)).1
      ("BTC_USD", ⟨5, "m"⟩) (by decide) "BTC" "USD" (by decide),
    (updateRates_report_and_persistence _ [] none ⟨"S", "I"⟩).2.1
      ⟨("coingecko", Except.error "boom"), by decide, by decide⟩⟩

/-- Claim C4.  `save_to_history` is a deduplicating append: the new history
is the old one plus exactly those batch records whose identity
(`from_to_timestamp`, second precision) is not already present, the
returned count is the number of records actually appended, and a second
call with the identical batch and timestamp appends nothing and returns 0
(a plain return value, not an error). -/
theorem saveToHistory_dedup (history : List HistoryRecord) (rates : RatesMap)
    (src : String) (ts : Timestamp) :
    (saveToHistory history rates src ts).1
        = history ++ specNewRecords history rates src ts
    ∧ (saveToHistory history rates src ts).2
        = (specNewRecords history rates src ts).length
    ∧ saveToHistory (saveToHistory history rates src ts).1 rates src ts
        = ((saveToHistory history rates src ts).1, 0) := by
  refine ⟨?_, ?_, ?_⟩
  · simp [saveToHistory, appendLoop_eq_filterMap, specNewRecords]
  · simp [saveToHistory, appendLoop_eq_filterMap, specNewRecords]
  · have hall : ∀ kv ∈ rates, ∀ f t, pySplit kv.1 '_' = [f, t] →
        generateRateId f t ts
          ∈ ((saveToHistory history rates src ts).1).map (fun rec => rec.id) :=
      saveToHistory_id_mem history rates src ts
    rw [saveToHistory, appendLoop_nothing_new _ _ _ _ hall]
    simp

/-- Claim C5.  `_atomic_write` is failure-safe: on a failing attempt the
committed file is unchanged (byte-identical), the temporary artifact is
removed, and the error propagates; on a successful attempt the data is
committed via the temp-then-rename step and the temporary file is gone. -/
theorem atomicWrite_failure_safe {α : Type} (fs : FileState α) (data : α) :
    ((atomicWrite fs data false).1.committed = fs.committed
      ∧ (atomicWrite fs data false).1.temp = none
      ∧ (atomicWrite fs data false).2 = false)
    ∧ ((atomicWrite fs data true).1.committed = some data
      ∧ (atomicWrite fs data true).1.temp = none
      ∧ (atomicWrite fs data true).2 = true) :=
  ⟨⟨rfl, rfl, rfl⟩, ⟨rfl, rfl, rfl⟩⟩

/-- Counterexample to claim C6 as stated: the identity case is NOT checked
before registry validation — for the unregistered code `"ZZZ"`,
`resolve("ZZZ", "ZZZ")` raises `CurrencyNotFoundError` instead of returning
rate 1.0. -/
theorem getRate_identity_cex :
    getRate [] "ZZZ" "ZZZ" 0 = .error (.currencyNotFound "ZZZ") ∧
    getRate [] "ZZZ" "ZZZ" 0 ≠ .ok 1 := by
  constructor <;> decide

/-- Claim C6 (amended).  After registry validation, the identity case
returns rate 1.0 before any cache lookup: for every registered code `x` and
every cache `db`, `resolve(x, x)` is `1.0`, independent of the cache. -/
theorem getRate_identity_registered (db : Cache) (x : String)
    (hx : x ∈ registryCodes) : getRate db x x 0 = .ok 1 := by
  have hu := registry_pyUpper_self x hx
  simp [getRate, getRateGo, hu, hx]

/-- Witness for C6 (amended) at `x = "BTC"` with a non-trivial cache. -/
theorem getRate_identity_registered_witness :
    "BTC" ∈ registryCodes ∧ getRate [("EUR_USD", some 2)] "BTC" "BTC" 0 = .ok 1 :=
  ⟨by decide, getRate_identity_registered [("EUR_USD", some 2)] "BTC" (by decide)⟩

/-- Counterexample to claim C7 as stated: when the cache also carries a
direct entry for the queried pair, the direct entry wins over the
reciprocal of the reverse entry.  Cache `{EUR_USD: 2, USD_EUR: 5}` contains
the pair (EUR, USD) with rate 2 > 0, yet `resolve(USD, EUR)` returns 5, not
1/2. -/
theorem getRate_reciprocal_cex :
    getRate [("EUR_USD", some 2), ("USD_EUR", some 5)] "USD" "EUR" 0 = .ok 5 ∧
    (5 : ℚ) ≠ 1 / 2 := by
  refine ⟨by decide, by norm_num⟩

/-- Claim C7 (amended).  For every cache containing entry (a, b) with rate
r > 0, with a and b registered, and with no direct (b, a) entry carrying a
rate, `resolve(b, a)` returns the exact reciprocal 1/r. -/
theorem getRate_reverse_reciprocal (db : Cache) (a b : String) (r : ℚ)
    (ha : a ∈ registryCodes) (hb : b ∈ registryCodes)
    (hrev : db.lookup (pairKey a b) = some (some r)) (hr : 0 < r)
    (hdir : ∀ r', db.lookup (pairKey b a) ≠ some (some r')) :
    getRate db b a 0 = .ok (1 / r) := by
  have hua := registry_pyUpper_self a ha
  have hub := registry_pyUpper_self b hb
  have hne : b ≠ a := by
    rintro rfl
    exact hdir r hrev
  have hdb : db.isEmpty = false := by
    cases db with
    | nil => simp [List.lookup] at hrev
    | cons x xs => rfl
  have hr0 : r ≠ 0 := ne_of_gt hr
  simp only [getRate, getRateGo, hua, hub, hb, ha, if_pos, hdb, Bool.false_eq_true,
    if_false, if_neg hne]
  rcases h1 : db.lookup (pairKey b a) with _ | o
  · simp only [h1, hrev, if_neg hr0]
  · rcases o with _ | r'
    · simp only [h1, hrev, if_neg hr0]
    · exact absurd h1 (hdir r')

/-- Witness for C7 (amended): cache `{EUR_USD: 2}`, `resolve(USD, EUR)`
returns 1/2. -/
theorem getRate_reverse_reciprocal_witness :
    ("EUR" ∈ registryCodes ∧ "USD" ∈ registryCodes ∧
      ([("EUR_USD", some (2 : ℚ))] : Cache).lookup (pairKey "EUR" "USD") = some (some 2) ∧
      (0 : ℚ) < 2 ∧
      getRate [("EUR_USD", some 2)] "USD" "EUR" 0 = .ok (1 / 2)) :=
  ⟨by decide, by decide, by decide, by decide,
    getRate_reverse_reciprocal [("EUR_USD", some 2)] "EUR" "USD" 2
      (by decide) (by decide) (by decide) (by decide)
      (fun r' h => by simp [pairKey, List.lookup] at h)⟩

/-- Counterexample to claim C8 as stated: `update_rates_cache` writes every
input entry through verbatim, so a rates map carrying a rate of 0 yields a
written cache entry whose rate is not strictly positive. -/
theorem updateRatesCache_positive_cex :
    ("XXX_USD", (⟨0, "IZ"⟩ : CacheEntry))
        ∈ (updateRatesCache [("XXX_USD", ⟨0, "m"⟩)] "ParserService" ⟨"S", "I"⟩).pairs
    ∧ ¬ (0 : ℚ) < (⟨0, "IZ"⟩ : CacheEntry).rate := by
  refine ⟨by decide, by norm_num⟩

/-- Claim C8 (amended).  The cache-update operation preserves rates
verbatim, so positivity is preserved rather than enforced: if every rate in
the input map is strictly positive then every written per-pair entry's rate
is strictly positive. -/
theorem updateRatesCache_preserves_positive (rates : RatesMap) (src : String)
    (ts : Timestamp) (hpos : ∀ kv ∈ rates, 0 < kv.2.rate) :
    ∀ p ∈ (updateRatesCache rates src ts).pairs, 0 < p.2.rate := by
  intro p hp
  simp only [updateRatesCache, List.mem_map] at hp
  obtain ⟨kv, hkv, rfl⟩ := hp
  exact hpos kv hkv

/-- Witness for C8 (amended) on the singleton map `{BTC_USD: 5}`. -/
theorem updateRatesCache_preserves_positive_witness :
    (0 : ℚ) < 5 ∧ 0 < ((⟨(5 : ℚ), "IZ"⟩ : CacheEntry)).rate :=
  ⟨by norm_num,
    updateRatesCache_preserves_positive [("BTC_USD", ⟨5, "m"⟩)] "ParserService" ⟨"S", "I"⟩
      (by
        intro kv hkv
        simp only [List.mem_singleton] at hkv
        subst hkv
        norm_num)
      ("BTC_USD", ⟨5, "IZ"⟩) (by decide)⟩

/-- Claim C9.  Resolution against an empty cache is resolution against the
hardcoded fallback table (for all arguments and depths), and for registered
distinct codes the resolution fails with `RateUnavailable` exactly when the
pair is resolvable from the fallback table neither directly, nor reversely,
nor via cross-derivation through USD (`specFallbackResolvable`). -/
theorem getRate_empty_cache_fallback :
    (∀ (f t : String) (d : Nat), getRate [] f t d = getRate FALLBACK_RATES f t d)
    ∧ (∀ f t, f ∈ registryCodes → t ∈ registryCodes → f ≠ t →
        (getRate [] f t 0 = .error .rateUnavailable ↔ specFallbackResolvable f t = false)) := by
  constructor
  · intro f t d
    exact getRateGo_empty_eq_fallback (3 - d) f t
  · intro f t hf ht hne
    simp only [registryCodes, List.mem_cons, List.not_mem_nil, or_false] at hf ht
    rcases hf with rfl | rfl | rfl | rfl | rfl <;>
      rcases ht with rfl | rfl | rfl | rfl | rfl <;>
      first
        | exact absurd rfl hne
        | decide

/-- Witness for C9 at the registered pair (EUR, USD). -/
theorem getRate_empty_cache_fallback_witness :
    ("EUR" ∈ registryCodes ∧ "USD" ∈ registryCodes ∧ "EUR" ≠ "USD") ∧
      (getRate [] "EUR" "USD" 0 = .error .rateUnavailable ↔
        specFallbackResolvable "EUR" "USD" = false) :=
  ⟨⟨by decide, by decide, by decide⟩,
    getRate_empty_cache_fallback.2 "EUR" "USD" (by decide) (by decide) (by decide)⟩

/-- Counterexample to claim C10 as stated: with both clients reporting the
shared pair `BTC_USD` in one run, the written cache does hold the later
client's value (200, from `exchangerate`), but the later client's fragment
is NOT appended to history in full — both clients share the run timestamp,
so the later record's identity duplicates the earlier one and is skipped:
the final history holds exactly one record, from `coingecko`. -/
theorem updateRates_merge_history_cex :
    (updateRates
        [("coingecko", Except.ok [("BTC_USD", ⟨100, "m1"⟩)]),
         ("exchangerate", Except.ok [("BTC_USD", ⟨200, "m2"⟩)])]
        [] none ⟨"S", "I"⟩).history.map (fun rec => rec.source) = ["coingecko"]
    ∧ (updateRates
        [("coingecko", Except.ok [("BTC_USD", ⟨100, "m1"⟩)]),
         ("exchangerate", Except.ok [("BTC_USD", ⟨200, "m2"⟩)])]
        [] none ⟨"S", "I"⟩).cache
      = some ⟨[("BTC_USD", ⟨200, "IZ"⟩)], "ParserService", "IZ"⟩ := by
  refine ⟨by decide, by decide⟩

/-- Claim C10 (amended).  When both clients of the registered run order
(`coingecko` before `exchangerate`) report the same pair in one run, the
aggregate map and written cache entry hold the later client's value,
silently overwriting the earlier client's; the history, however, keeps only
the earlier client's record for that pair — the later client's record has
the same dedup identity (same run timestamp) and is skipped. -/
theorem updateRates_later_client_wins (k f t : String) (d1 d2 : RateData)
    (h0 : List HistoryRecord) (c0 : Option CacheFile) (ts : Timestamp)
    (hsp : pySplit k '_' = [f, t])
    (hid : generateRateId f t ts ∉ h0.map (fun rec => rec.id)) :
    (updateRates [("coingecko", Except.ok [(k, d1)]),
                  ("exchangerate", Except.ok [(k, d2)])] h0 c0 ts).cache
      = some ⟨[(k, ⟨d2.rate, ts.iso ++ "Z"⟩)], "ParserService", ts.iso ++ "Z"⟩
    ∧ (updateRates [("coingecko", Except.ok [(k, d1)]),
                    ("exchangerate", Except.ok [(k, d2)])] h0 c0 ts).history
      = h0 ++ [mkRecord f t d1 "coingecko" ts] := by
  have hstep1 : saveToHistory h0 [(k, d1)] "coingecko" ts
      = (h0 ++ [mkRecord f t d1 "coingecko" ts], 1) := by
    simp [saveToHistory, appendLoop, hsp, hid]
  have hstep2 : saveToHistory (h0 ++ [mkRecord f t d1 "coingecko" ts])
      [(k, d2)] "exchangerate" ts
      = (h0 ++ [mkRecord f t d1 "coingecko" ts], 0) := by
    simp [saveToHistory, appendLoop, hsp, mkRecord]
  constructor
  · simp [updateRates, runClients, hstep1, hstep2, dictUpdate, dictInsert,
      updateRatesCache]
  · simp [updateRates, runClients, hstep1, hstep2]

/-- Witness for C10 (amended) at the shared pair `BTC_USD`. -/
theorem updateRates_later_client_wins_witness :
    (pySplit "BTC_USD" '_' = ["BTC", "USD"]
      ∧ generateRateId "BTC" "USD" ⟨"S", "I"⟩
          ∉ ([] : List HistoryRecord).map (fun rec => rec.id))
    ∧ (updateRates [("coingecko", Except.ok [("BTC_USD", ⟨100, "m1"⟩)]),
                    ("exchangerate", Except.ok [("BTC_USD", ⟨200, "m2"⟩)])]
        [] none ⟨"S", "I"⟩).cache
      = some ⟨[("BTC_USD", ⟨(200 : ℚ), "I" ++ "Z"⟩)], "ParserService", "I" ++ "Z"⟩ :=
  ⟨⟨by decide, by decide⟩,
    (updateRates_later_client_wins "BTC_USD" "BTC" "USD" ⟨100, "m1"⟩ ⟨200, "m2"⟩
      [] none ⟨"S", "I"⟩ (by decide) (by decide)).1⟩
